import Mathlib

/-!
Verification of the Eryx Python guest runtime and CLI helpers.

This file gives a shallow embedding of the Python source files

  * `crates/eryx-runtime/runtime.py` (session state persistence:
    `_persistent_globals`, `_get_base_globals`, `_get_exec_globals`,
    `_extract_user_globals`, `_filter_picklable`, `snapshot_state`,
    `restore_state`, `clear_state`, and the sync path of `execute`),
  * `crates/eryx-python/python/eryx/_cli.py` (`parse_volume`),
  * `crates/eryx-python/python/eryx/mcp.py` (`_extract_stdio_servers`,
    `_expand_env_vars`),
  * `crates/eryx-wasm-runtime/python/componentize_py_runtime.py`
    (`invoke_async`),

and proves the spec's claims about them.  Python dicts are embedded as
association lists with Python's insertion-order update semantics; Python
strings are embedded as `List Char` where character-level scanning
matters and as `String` elsewhere; `pickle` (an external library the
runtime calls) is embedded abstractly by its round-trip contract, with a
concrete length model for the size-limit check.
-/

namespace Eryx

/-! ### Association lists with Python dict semantics

A Python `dict` is embedded as a `List (key × value)`; functions below
implement lookup (first occurrence), `d1.update(d2)` (existing keys keep
their position and take the new value, new keys are appended in order)
and single-key assignment. -/

/-- Lookup of a key in an association list (first occurrence wins;
dicts built by the model have unique keys). -/
def alookup {α : Type} : List (String × α) → String → Option α
  | [], _ => Option.none
  | (k, v) :: rest, key => if k = key then some v else alookup rest key

/-- Python `d1.update(d2)`: keys already in `d1` keep their position and
receive the value from `d2` when present; keys only in `d2` are appended
in `d2`'s order. -/
def aupdate {α : Type} (d1 d2 : List (String × α)) : List (String × α) :=
  d1.map (fun kv =>
    match alookup d2 kv.1 with
    | some v => (kv.1, v)
    | Option.none => kv)
  ++ d2.filter (fun kv => (alookup d1 kv.1).isNone)

/-- Python `d[k] = v`. -/
def ainsert {α : Type} (d : List (String × α)) (k : String) (v : α) :
    List (String × α) :=
  aupdate d [(k, v)]

theorem alookup_append {α : Type} (l1 l2 : List (String × α)) (k : String) :
    alookup (l1 ++ l2) k = (alookup l1 k).orElse (fun _ => alookup l2 k) := by
  induction l1 with
  | nil => simp [alookup, Option.orElse]
  | cons hd tl ih =>
    obtain ⟨k', v'⟩ := hd
    by_cases h : k' = k <;> simp [alookup, h, ih, Option.orElse]

theorem alookup_map_subst {α : Type} (d1 d2 : List (String × α)) (k : String) :
    alookup (d1.map (fun kv =>
      match alookup d2 kv.1 with
      | some v => (kv.1, v)
      | Option.none => kv)) k
    = match alookup d1 k with
      | some v => some ((alookup d2 k).getD v)
      | Option.none => Option.none := by
  induction d1 with
  | nil => simp [alookup]
  | cons hd tl ih =>
    obtain ⟨k', v'⟩ := hd
    by_cases h : k' = k
    · subst h
      cases h2 : alookup d2 k' <;> simp [alookup, h2]
    · cases h2 : alookup d2 k' <;> simp [alookup, h, h2, ih]

theorem alookup_filter_keep {α : Type} (d1 d2 : List (String × α)) (k : String)
    (h : alookup d1 k = Option.none) :
    alookup (d2.filter (fun kv => (alookup d1 kv.1).isNone)) k = alookup d2 k := by
  induction d2 with
  | nil => simp [alookup]
  | cons hd tl ih =>
    obtain ⟨k', v'⟩ := hd
    by_cases hk : k' = k
    · subst hk
      simp [List.filter, h, alookup]
    · cases hp : (alookup d1 k').isNone <;>
        simp [List.filter, hp, alookup, hk, ih]

/-- The fundamental lookup law for `aupdate`: the second dict wins. -/
theorem alookup_aupdate {α : Type} (d1 d2 : List (String × α)) (k : String) :
    alookup (aupdate d1 d2) k = (alookup d2 k).orElse (fun _ => alookup d1 k) := by
  unfold aupdate
  rw [alookup_append, alookup_map_subst]
  cases h1 : alookup d1 k with
  | none =>
    rw [alookup_filter_keep d1 d2 k h1]
    cases h2 : alookup d2 k <;> simp [Option.orElse]
  | some v =>
    cases h2 : alookup d2 k <;> simp [Option.orElse, h2]

/-- Updating the empty dict gives back the second dict unchanged
(Python `d.clear(); d.update(r)` leaves `d` equal to `r`). -/
theorem aupdate_nil {α : Type} (d : List (String × α)) :
    aupdate ([] : List (String × α)) d = d := by
  unfold aupdate
  simp [alookup]

theorem alookup_ainsert_self {α : Type} (d : List (String × α)) (k : String) (v : α) :
    alookup (ainsert d k v) k = some v := by
  unfold ainsert
  rw [alookup_aupdate]
  simp [alookup]

theorem alookup_ainsert_ne {α : Type} (d : List (String × α)) (k k' : String) (v : α)
    (h : k ≠ k') :
    alookup (ainsert d k v) k' = alookup d k' := by
  unfold ainsert
  rw [alookup_aupdate]
  simp [alookup, h]

/-- With unique keys, membership determines lookup. -/
theorem alookup_of_mem_nodup {α : Type} (d : List (String × α)) (k : String) (v : α)
    (hnd : (d.map Prod.fst).Nodup) (hmem : (k, v) ∈ d) :
    alookup d k = some v := by
  induction d with
  | nil => cases hmem
  | cons hd tl ih =>
    obtain ⟨k', v'⟩ := hd
    simp only [List.map_cons, List.nodup_cons] at hnd
    rcases List.mem_cons.mp hmem with heq | htl
    · cases heq
      simp [alookup]
    · have hne : k' ≠ k := by
        intro hkk
        exact hnd.1 (hkk ▸ List.mem_map.mpr ⟨(k, v), htl, rfl⟩)
      simp [alookup, hne, ih hnd.2 htl]

/-! ### The guest runtime (`crates/eryx-runtime/runtime.py`)

Python values are embedded as `PyValue`.  The embedding keeps exactly
the distinctions the runtime's persistence logic branches on: `None`
(filtered from persistence and used for blocked modules), module objects
(filtered from persistence and unpicklable), picklable data values, and
unpicklable objects. A `bytes` object is represented by its length so
that snapshot sizes are computable. -/

inductive PyValue where
  /-- Python `None`. -/
  | none : PyValue
  /-- A module object (`types.ModuleType`); `pickle.dumps` raises on it. -/
  | module (name : String) : PyValue
  /-- An `int`. -/
  | int (n : Int) : PyValue
  /-- A `str`. -/
  | str (s : String) : PyValue
  /-- A `bytes` object, represented by its length. -/
  | blob (size : Nat) : PyValue
  /-- Some other picklable object (function objects of the runtime API,
  classes, instances with a working `__reduce__`, ...). -/
  | obj (tag : String) : PyValue
  /-- An object on which `pickle.dumps` raises
  (`PicklingError`/`TypeError`/`AttributeError`). -/
  | unpicklable (tag : String) : PyValue
  deriving DecidableEq

/-- A Python dict holding globals: insertion-ordered association list. -/
abbrev Dict := List (String × PyValue)

/-- Keys of a dict. -/
def dkeys (d : Dict) : List String := d.map Prod.fst

/-- Model of `MAX_SNAPSHOT_SIZE = 10 * 1024 * 1024` (runtime.py line 37). -/
def MAX_SNAPSHOT_SIZE : Nat := 10 * 1024 * 1024

/-- Model of `_EXCLUDED_KEYS` (runtime.py lines 40-70); the source frozenset lists
`__builtins__` twice, deduplicated here as a set would be. -/
def EXCLUDED_KEYS : List String :=
  ["__builtins__", "invoke", "list_callbacks", "asyncio", "json", "math",
   "re", "defaultdict", "Counter", "datetime", "timedelta", "groupby",
   "chain", "os", "subprocess", "socket", "__import__",
   "__name__", "__doc__", "__package__", "__loader__", "__spec__",
   "__annotations__", "__file__", "__cached__"]

/-- Model of `_get_base_globals` (runtime.py lines 73-94): pre-imported modules
and helpers, with `os`, `subprocess`, `socket`, `__import__` bound to
`None` ("Blocked for security"). -/
def base_globals : Dict :=
  [("__builtins__", PyValue.obj "builtins"),
   ("asyncio", PyValue.module "asyncio"),
   ("json", PyValue.module "json"),
   ("math", PyValue.module "math"),
   ("re", PyValue.module "re"),
   ("defaultdict", PyValue.obj "defaultdict"),
   ("Counter", PyValue.obj "Counter"),
   ("datetime", PyValue.obj "datetime"),
   ("timedelta", PyValue.obj "timedelta"),
   ("groupby", PyValue.obj "groupby"),
   ("chain", PyValue.obj "chain"),
   ("os", PyValue.none),
   ("subprocess", PyValue.none),
   ("socket", PyValue.none),
   ("__import__", PyValue.none)]

/-- The two Eryx API functions added by `_get_exec_globals`; they are
local closures of `execute` and unpicklable. -/
def api_globals : Dict :=
  [("invoke", PyValue.unpicklable "function invoke"),
   ("list_callbacks", PyValue.unpicklable "function list_callbacks")]

/-- Model of `_get_exec_globals` (runtime.py lines 97-116): base globals, plus
the API functions, then `update`d with the persistent state. -/
def _get_exec_globals (persistent : Dict) : Dict :=
  aupdate (aupdate base_globals api_globals) persistent

/-- Model of `base_keys` as computed inside `_extract_user_globals`
(runtime.py lines 132-134). -/
def base_keys : List String :=
  dkeys base_globals ++ EXCLUDED_KEYS ++ ["invoke", "list_callbacks"]

/-- Model of `isinstance(value, types.ModuleType)`. -/
def isModule : PyValue → Bool
  | PyValue.module _ => true
  | _ => false

/-- Python `value is None`. -/
def isNone : PyValue → Bool
  | PyValue.none => true
  | _ => false

/-- Python `key.startswith("_")`: the first character is `'_'`. -/
def startsWithUnderscore (s : String) : Bool :=
  match s.data with
  | c :: _ => c = '_'
  | [] => false

/-- The string ends in a newline (Python `s.endswith("\n")`). -/
def endsWithNewline (s : String) : Bool :=
  s.data.getLast? = some '\n'

/-- Model of `_extract_user_globals` (runtime.py lines 119-152): drop base keys,
names starting with `_`, `None` values, and module objects. -/
def _extract_user_globals (g : Dict) : Dict :=
  g.filter (fun kv =>
    !(base_keys.contains kv.1) && !(startsWithUnderscore kv.1)
      && !(isNone kv.2) && !(isModule kv.2))

/-- Model of `_is_picklable` (runtime.py lines 155-168): `pickle.dumps` succeeds
on everything except module objects and explicitly unpicklable objects. -/
def _is_picklable : PyValue → Bool
  | PyValue.module _ => false
  | PyValue.unpicklable _ => false
  | _ => true

/-- Model of `_filter_picklable` (runtime.py lines 171-189), keeping only the
dict component (the skipped-keys list is discarded by `snapshot_state`). -/
def _filter_picklable (d : Dict) : Dict :=
  d.filter (fun kv => _is_picklable kv.2)

/-! #### The pickle codec

`pickle` is an external library; the runtime relies on its round-trip
contract (`pickle.loads (pickle.dumps x) == x` for picklable `x`).  The
embedding represents a byte string either as the image of some pickled
value — a dict, or a non-dict — or as bytes `pickle.loads` raises on. -/

inductive PickleData where
  /-- A pickled dict of globals. -/
  | dict (d : Dict) : PickleData
  /-- A pickled value that is not a dict; the tag is Python's
  `type(value).__name__`. -/
  | nonDict (typeName : String) : PickleData
  deriving DecidableEq

inductive Bytes where
  /-- Bytes produced by `pickle.dumps` of some value. -/
  | pickled (p : PickleData) : Bytes
  /-- Bytes on which `pickle.loads` raises. -/
  | malformed (tag : String) : Bytes
  deriving DecidableEq

/-- Model of `pickle.loads`, as a partial decode. -/
def pickleLoads : Bytes → Option PickleData
  | Bytes.pickled p => some p
  | Bytes.malformed _ => Option.none

/-- Length model for the serialized bytes of one value. -/
def pickleValueLen : PyValue → Nat
  | PyValue.none => 1
  | PyValue.module n => n.length + 2
  | PyValue.int _ => 9
  | PyValue.str s => s.length + 5
  | PyValue.blob n => n + 5
  | PyValue.obj t => t.length + 2
  | PyValue.unpicklable t => t.length + 2

/-- Length model for `len(pickle.dumps(d))` of a globals dict. -/
def pickleDictLen (d : Dict) : Nat :=
  2 + (d.map (fun kv => kv.1.length + 4 + pickleValueLen kv.2)).sum

/-! #### Snapshot / restore / clear -/

/-- Error values raised (as `Err`) by the snapshot subsystem. -/
inductive RtErr where
  /-- Error "Snapshot too large: ... bytes (max ... bytes)". -/
  | snapshotTooLarge (size : Nat) : RtErr
  /-- Error "Failed to restore state: ...": `pickle.loads` raised. -/
  | restoreDecodeFailed : RtErr
  /-- Error "Invalid snapshot: expected dict, got ...". -/
  | invalidSnapshotNotDict (typeName : String) : RtErr
  deriving DecidableEq

/-- Model of `WitWorld.snapshot_state` (runtime.py lines 402-438): filter the
persistent globals to picklable items, pickle them, fail if the result
exceeds `MAX_SNAPSHOT_SIZE`, otherwise return the bytes. -/
def snapshot_state (persistent : Dict) : Except RtErr Bytes :=
  let picklable := _filter_picklable persistent
  let data := Bytes.pickled (PickleData.dict picklable)
  if pickleDictLen picklable > MAX_SNAPSHOT_SIZE then
    Except.error (RtErr.snapshotTooLarge (pickleDictLen picklable))
  else
    Except.ok data

/-- Model of `WitWorld.restore_state` (runtime.py lines 440-470) as a state
transformer: result is the new persistent dict paired with the raised
error, if any.  The mutation (`clear` then `update`) happens only after
`pickle.loads` succeeded and the `isinstance(restored, dict)` check
passed, so both error paths leave the state untouched. -/
def restore_state (data : Bytes) (persistent : Dict) : Dict × Option RtErr :=
  match pickleLoads data with
  | Option.none => (persistent, some RtErr.restoreDecodeFailed)
  | some (PickleData.nonDict t) => (persistent, some (RtErr.invalidSnapshotNotDict t))
  | some (PickleData.dict d) => (aupdate ([] : Dict) d, Option.none)

/-- Model of `WitWorld.clear_state` (runtime.py lines 472-479). -/
def clear_state (_persistent : Dict) : Dict := []

/-! #### `execute`

Arbitrary Python cannot be shallowly embedded; the statements the
claims' scenarios use are.  `Stmt` covers literal integer assignment
(`x = 42`), `print` of a variable, and `print` of a string literal —
executed by `exec(compiled, exec_globals, exec_locals)` on the
synchronous path of `WitWorld.execute` (runtime.py lines 352-393):
assignments bind in `exec_locals`, name loads search `exec_locals` then
`exec_globals`, `print` appends the value's `str()` and a newline to the
captured stdout. -/

inductive Stmt where
  /-- Model of `x = n` with an integer literal. -/
  | assignInt (name : String) (n : Int) : Stmt
  /-- Model of `print(x)`. -/
  | printVar (name : String) : Stmt
  /-- Model of `print('s')`. -/
  | printStr (s : String) : Stmt

/-- Python `str()` of a value, as far as the embedded statements need. -/
def pyStr : PyValue → String
  | PyValue.none => "None"
  | PyValue.module n => "<module " ++ n ++ ">"
  | PyValue.int n => toString n
  | PyValue.str s => s
  | PyValue.blob n => "<" ++ toString n ++ " bytes>"
  | PyValue.obj t => "<" ++ t ++ ">"
  | PyValue.unpicklable t => "<" ++ t ++ ">"

/-- Run the embedded statements over `(exec_globals, exec_locals,
captured stdout)`; `Option.none` is an uncaught Python exception
(`NameError` on an unbound name load). -/
def runStmts : List Stmt → Dict → Dict → String → Option (Dict × Dict × String)
  | [], g, l, out => some (g, l, out)
  | Stmt.assignInt x n :: rest, g, l, out =>
      runStmts rest g (ainsert l x (PyValue.int n)) out
  | Stmt.printVar x :: rest, g, l, out =>
      match (alookup l x).orElse (fun _ => alookup g x) with
      | some v => runStmts rest g l (out ++ pyStr v ++ "\n")
      | Option.none => Option.none
  | Stmt.printStr s :: rest, g, l, out =>
      runStmts rest g l (out ++ s ++ "\n")

/-- Python `output.rstrip("\n")`: remove every trailing newline. -/
def rstripNl (s : String) : String :=
  String.mk ((s.data.reverse.dropWhile (fun c => c = '\n')).reverse)

/-- Model of `WitWorld.execute` (runtime.py lines 193-400), synchronous path, as
a state transformer over the persistent globals.  On success the
user-defined bindings of `exec_globals` and `exec_locals` are extracted
and merged into the persistent state (locals take precedence), and the
captured stdout is returned with trailing newlines stripped
(`output.rstrip("\n") if output else ""`, line 393).  On an exception
the handler re-raises as `Err` without touching the persistent state
(`Option.none` here). -/
def execute (code : List Stmt) (persistent : Dict) : Dict × Option String :=
  match runStmts code (_get_exec_globals persistent) [] "" with
  | some (g, l, out) =>
      let user_globals := _extract_user_globals g
      let user_locals := _extract_user_globals l
      (aupdate (aupdate persistent user_globals) user_locals,
       some (if out = "" then "" else rstripNl out))
  | Option.none => (persistent, Option.none)

/-! #### Session histories

A session is the module-level `_persistent_globals` dict driven by the
four exported operations. -/

inductive SessionOp where
  | exec (code : List Stmt) : SessionOp
  | snapshot : SessionOp
  | restore (b : Bytes) : SessionOp
  | clear : SessionOp

/-- Effect of one exported operation on `_persistent_globals`
(`snapshot_state` reads but never writes it). -/
def stepState : SessionOp → Dict → Dict
  | SessionOp.exec code, s => (execute code s).1
  | SessionOp.snapshot, s => s
  | SessionOp.restore b, s => (restore_state b s).1
  | SessionOp.clear, s => clear_state s

/-- The persistent state after a history of operations, starting from
the initial empty `_persistent_globals`. -/
def runOps (ops : List SessionOp) : Dict :=
  ops.foldl (fun s op => stepState op s) []

/-- The four names bound to `None` "for security" in the base globals
and listed in `_EXCLUDED_KEYS`. -/
def blockedNames : List String := ["os", "subprocess", "socket", "__import__"]

/-- A session operation that cannot smuggle a blocked name into the
persistent state: any operation except a `restore_state` whose bytes
decode to a dict binding a blocked name to a non-`None` value. -/
def restoreSafe : SessionOp → Bool
  | SessionOp.restore b =>
      match pickleLoads b with
      | some (PickleData.dict d) =>
          d.all (fun kv => !(blockedNames.contains kv.1) || (kv.2 == PyValue.none))
      | _ => true
  | _ => true

/-- A persistent state that binds no blocked name to a non-`None`
value. -/
def stateSafe (S : Dict) : Prop :=
  ∀ n ∈ blockedNames, ∀ v, alookup S n = some v → v = PyValue.none

/-! ### The CLI volume parser (`crates/eryx-python/python/eryx/_cli.py`)

Python strings are embedded as `List Char` here, since `parse_volume`
works by character-level splitting on `':'`.

Python's `str.isalpha` is Unicode-table-driven (true on every Unicode
letter, e.g. on `'é'`), an external facility of the runtime like
`os.environ`; the embedding therefore passes it as an explicit
predicate `isalpha : Char → Bool`, just as `_expand_env_vars` receives
the environment.  The theorems hold for every such predicate with
`isalpha ':' = false` — a fact true of CPython, where `':'` is not a
letter. -/

/-- Python `spec.split(":")`. -/
def splitOnColon : List Char → List (List Char)
  | [] => [[]]
  | c :: rest =>
      let ps := splitOnColon rest
      if c = ':' then [] :: ps
      else (c :: ps.headD []) :: ps.tail

/-- Left inverse of `splitOnColon`: interleave the parts with `':'`
(Python `":".join(parts)`). -/
def joinColon : List (List Char) → List Char
  | [] => []
  | [p] => p
  | p :: q :: ps => p ++ ':' :: joinColon (q :: ps)

/-- Rejoin a Windows drive letter (`_cli.py` lines 17-19): when there
are at least two parts and the first is a single character satisfying
Python's `str.isalpha` (the `isalpha` parameter), glue the first two
parts back together with the `':'` they were split on. -/
def rejoinDrive (isalpha : Char → Bool) (parts : List (List Char)) :
    List (List Char) :=
  match parts with
  | p0 :: p1 :: rest =>
      if p0.length = 1 && p0.all isalpha then (p0 ++ ':' :: p1) :: rest
      else parts
  | _ => parts

/-- Model of `parse_volume` (`_cli.py` lines 11-26), parametrised by
the runtime's `str.isalpha` predicate.  `Option.none` is the
`argparse.ArgumentTypeError` raise. -/
def parse_volume (isalpha : Char → Bool) (spec : List Char) :
    Option (List Char × List Char × Bool) :=
  match rejoinDrive isalpha (splitOnColon spec) with
  | [a, b] => some (a, b, false)
  | [a, b, c] =>
      if c = ['r', 'o'] then some (a, b, true)
      else if c = ['r', 'w'] then some (a, b, false)
      else Option.none
  | _ => Option.none

/-! ### MCP config discovery (`crates/eryx-python/python/eryx/mcp.py`) -/

/-- Parsed JSON/TOML values, as far as the server-extraction logic
inspects them. -/
inductive JValue where
  | null : JValue
  | bool (b : Bool) : JValue
  | num (n : Int) : JValue
  | str (s : String) : JValue
  | arr (elems : List JValue) : JValue
  | obj (fields : List (String × JValue)) : JValue

/-- A parsed JSON object. -/
abbrev JDict := List (String × JValue)

/-- Python truthiness of a parsed config value. -/
def truthy : JValue → Bool
  | JValue.null => false
  | JValue.bool b => b
  | JValue.num n => n != 0
  | JValue.str s => !(s == "")
  | JValue.arr l => !l.isEmpty
  | JValue.obj l => !l.isEmpty

/-- Python `d.get(k, default)`. -/
def jget (d : JDict) (k : String) (default : JValue) : JValue :=
  (alookup d k).getD default

/-- Python `config.get("enabled") is False`: true exactly on the
literal `False`. -/
def isFalseLiteral : Option JValue → Bool
  | some (JValue.bool false) => true
  | _ => false

/-- Python `server_type != "stdio"` negated: a parsed value equals the
string `"stdio"` exactly when it is that string. -/
def isStdioStr : JValue → Bool
  | JValue.str s => s == "stdio"
  | _ => false

/-- The normalised server entry (`mcp.py` lines 162-166): exactly the
keys `command`, `args`, `env`. -/
def normalizeServer (cfg : JDict) : JDict :=
  [("command", jget cfg "command" JValue.null),
   ("args", jget cfg "args" (JValue.arr [])),
   ("env", jget cfg "env" (JValue.obj []))]

/-- One iteration of the loop body of `_extract_stdio_servers`
(`mcp.py` lines 141-166), translated branch by branch. -/
def processEntry (servers : List (String × JDict)) (name : String)
    (config : JValue) : List (String × JDict) :=
  match config with
  | JValue.obj cfg =>
      if truthy (jget cfg "disabled" (JValue.bool false)) then servers
      else if isFalseLiteral (alookup cfg "enabled") then servers
      else if !isStdioStr (jget cfg "type" (JValue.str "stdio")) then servers
      else if !truthy (jget cfg "command" JValue.null)
          && (truthy (jget cfg "url" JValue.null)
            || truthy (jget cfg "serverUrl" JValue.null)
            || truthy (jget cfg "httpUrl" JValue.null)) then servers
      else if !truthy (jget cfg "command" JValue.null) then servers
      else aupdate servers [(name, normalizeServer cfg)]
  | _ => servers

/-- Model of `_extract_stdio_servers` (`mcp.py` lines 123-168). -/
def _extract_stdio_servers (data : JDict) (key : String) :
    List (String × JDict) :=
  match jget data key (JValue.obj []) with
  | JValue.obj mapping =>
      mapping.foldl (fun servers kv => processEntry servers kv.1 kv.2) []
  | _ => []

/-- The claim's inclusion condition for one server entry: `type` equals
`"stdio"` or is absent, `disabled` is not truthy, `enabled` is not the
literal `False`, and `command` is set (truthy). -/
def includedCond (cfg : JDict) : Bool :=
  !truthy (jget cfg "disabled" (JValue.bool false))
    && !isFalseLiteral (alookup cfg "enabled")
    && isStdioStr (jget cfg "type" (JValue.str "stdio"))
    && truthy (jget cfg "command" JValue.null)

/-! ### Environment-value interpolation (`mcp.py` `_expand_env_vars`)

The regex

  `\$(?:(?P<name>ID)|\{(?P<brace>ID)\}|\{(?P<defname>ID):-(?P<default>[^}]*)\})`

with `ID = [A-Za-z_][A-Za-z0-9_]*` is embedded as a left-to-right
scanner: at each `'$'` the three alternatives are tried in order with
greedy identifier munch; on failure the scan advances one character
(`re.sub` semantics).  The environment is an association list modelling
`os.environ`. -/

/-- Model of `[A-Za-z_]`. -/
def isIdentStart (c : Char) : Bool := c.isAlpha || c = '_'

/-- Model of `[A-Za-z0-9_]`. -/
def isIdentCont (c : Char) : Bool := c.isAlphanum || c = '_'

/-- Model of `os.environ.get(name, "")`. -/
def envGet (env : List (String × String)) (name : String) : String :=
  (alookup env name).getD ""

/-- Split at the first `'}'` (the regex fragment `[^}]*\}`): returns
the characters before it and the remainder after it. -/
def splitAtRBrace : List Char → Option (List Char × List Char)
  | [] => Option.none
  | c :: rest =>
      if c = '}' then some ([], rest)
      else
        match splitAtRBrace rest with
        | some (pre, post) => some (c :: pre, post)
        | Option.none => Option.none

theorem splitAtRBrace_length :
    ∀ (l pre post : List Char), splitAtRBrace l = some (pre, post) →
      post.length < l.length := by
  intro l
  induction l with
  | nil => intro pre post h; simp [splitAtRBrace] at h
  | cons c rest ih =>
    intro pre post h
    by_cases hc : c = '}'
    · simp [splitAtRBrace, hc] at h
      simp [← h.2]
    · simp only [splitAtRBrace, hc, if_false] at h
      cases hs : splitAtRBrace rest with
      | none => rw [hs] at h; cases h
      | some pr =>
        obtain ⟨pre', post'⟩ := pr
        rw [hs] at h
        simp only [Option.some.injEq, Prod.mk.injEq] at h
        obtain ⟨h1, h2⟩ := h
        subst h2
        exact Nat.lt_succ_of_lt (ih _ _ hs)

/-- The continuations of the `\{...\}` alternatives once the identifier
has been read: either `'}'` closes a `${VAR}` match, or `":-"` starts a
`${VAR:-default}` match whose default runs to the first `'}'`.  The
result pairs the replacement produced by `_replace` with the remainder
of the input after the match. -/
def matchAfterIdent (env : List (String × String)) (ident : String) :
    List Char → Option (List Char × List Char)
  | '}' :: rem => some ((envGet env ident).data, rem)
  | ':' :: '-' :: rem =>
      match splitAtRBrace rem with
      | some (dflt, rem2) =>
          some ((if envGet env ident = "" then dflt
                 else (envGet env ident).data), rem2)
      | Option.none => Option.none
  | _ => Option.none

/-- The `\{...\}` alternatives, applied to the characters after `"${"`:
requires an identifier and then one of the two closings. -/
def matchBrace (env : List (String × String)) :
    List Char → Option (List Char × List Char)
  | d :: rest =>
      if isIdentStart d then
        matchAfterIdent env (String.mk (d :: rest.takeWhile isIdentCont))
          (rest.dropWhile isIdentCont)
      else Option.none
  | [] => Option.none

/-- Attempt the regex match at the position right after a `'$'`. -/
def tryMatch (env : List (String × String)) :
    List Char → Option (List Char × List Char)
  | c :: rest =>
      if isIdentStart c then
        some ((envGet env (String.mk (c :: rest.takeWhile isIdentCont))).data,
              rest.dropWhile isIdentCont)
      else if c = '{' then matchBrace env rest
      else Option.none
  | [] => Option.none

theorem length_dropWhile_le' (p : Char → Bool) (l : List Char) :
    (l.dropWhile p).length ≤ l.length := by
  induction l with
  | nil => simp
  | cons c rest ih =>
    by_cases h : p c
    · simp only [List.dropWhile, h]
      exact Nat.le_succ_of_le ih
    · simp [List.dropWhile, h]

theorem matchAfterIdent_length (env : List (String × String)) (ident : String)
    (cs repl rem : List Char)
    (h : matchAfterIdent env ident cs = some (repl, rem)) :
    rem.length < cs.length := by
  unfold matchAfterIdent at h
  split at h
  · cases h
    simp
  · rename_i rem0
    cases hs : splitAtRBrace rem0 with
    | none => rw [hs] at h; cases h
    | some pr =>
      obtain ⟨dflt, rem2⟩ := pr
      rw [hs] at h
      simp only [Option.some.injEq, Prod.mk.injEq] at h
      obtain ⟨h1, h2⟩ := h
      subst h2
      have := splitAtRBrace_length rem0 dflt _ hs
      simp only [List.length_cons]
      omega
  · cases h

theorem matchBrace_length (env : List (String × String)) (cs repl rem : List Char)
    (h : matchBrace env cs = some (repl, rem)) : rem.length < cs.length + 1 := by
  match cs with
  | [] => simp [matchBrace] at h
  | d :: rest =>
    simp only [matchBrace] at h
    by_cases hd : isIdentStart d
    · rw [if_pos hd] at h
      have h1 := matchAfterIdent_length env _ _ repl rem h
      have h2 := length_dropWhile_le' isIdentCont rest
      simp only [List.length_cons]
      omega
    · rw [if_neg hd] at h
      cases h

theorem tryMatch_length (env : List (String × String)) (cs repl rem : List Char)
    (h : tryMatch env cs = some (repl, rem)) : rem.length ≤ cs.length := by
  match cs with
  | [] => simp [tryMatch] at h
  | c :: rest =>
    simp only [tryMatch] at h
    by_cases h1 : isIdentStart c
    · rw [if_pos h1] at h
      cases h
      exact Nat.le_succ_of_le (length_dropWhile_le' _ _)
    · rw [if_neg h1] at h
      by_cases h2 : c = '{'
      · rw [if_pos h2] at h
        have := matchBrace_length env rest repl rem h
        simp only [List.length_cons]
        omega
      · rw [if_neg h2] at h
        cases h

/-- The `re.sub` scan with explicit fuel (one unit per input position;
each step consumes at least one character, so `cs.length` fuel always
suffices — see `expandFuel_congr`). -/
def expandFuel (env : List (String × String)) : Nat → List Char → List Char
  | 0, cs => cs
  | _ + 1, [] => []
  | fuel + 1, c :: rest =>
      if c = '$' then
        match tryMatch env rest with
        | some (repl, rem) => repl ++ expandFuel env fuel rem
        | Option.none => c :: expandFuel env fuel rest
      else c :: expandFuel env fuel rest

/-- Model of `_expand_env_vars` (`mcp.py` lines 78-104): `re.sub` over the
input, scanning left to right; where no alternative matches at a `'$'`
the scan advances one character, leaving the text unchanged. -/
def _expand_env_vars (env : List (String × String)) (cs : List Char) : List Char :=
  expandFuel env cs.length cs

/-- The input contains no occurrence of any of the three `$`-patterns:
at every position following a `'$'`, no alternative of the regex
matches. -/
def noPattern (env : List (String × String)) (cs : List Char) : Prop :=
  ∀ l1 l2, cs = l1 ++ '$' :: l2 → tryMatch env l2 = Option.none

/-! ### The guest async shim
(`crates/eryx-wasm-runtime/python/componentize_py_runtime.py`) -/

/-- A value crossing the async ABI: either a JSON string or a
`(waitable_id, promise_id)` handle pair. -/
inductive AbiValue where
  | json (s : String) : AbiValue
  | handles (waitable promise : Nat) : AbiValue
  deriving DecidableEq

/-- The `Ok`/`Err` result objects of `componentize_py_types.py` the shim
hands to the guest's async runtime. -/
inductive GuestResult where
  | Ok (value : AbiValue) : GuestResult
  | Err (value : AbiValue) : GuestResult
  deriving DecidableEq

/-- Model of `invoke_async` (`componentize_py_runtime.py` lines 41-55): dispatch
on the `(result_type, value)` pair returned by `_eryx._eryx_invoke_async`. -/
def invoke_async (result_type : Nat) (value : AbiValue) : GuestResult :=
  if result_type = 0 then GuestResult.Ok value
  else if result_type = 1 then GuestResult.Err value
  else GuestResult.Err value

/-- The 3-way ABI result variant of §4.7. -/
inductive AbiResult where
  | ok (result_json : String) : AbiResult
  | err (error_json : String) : AbiResult
  | pending (waitable promise : Nat) : AbiResult
  deriving DecidableEq

/-- Modelled from the spec: the host-side `_eryx._eryx_invoke_async`
intrinsic (Rust code not under src/) encodes the 3-way variant of §4.7
as a `(result_type, value)` pair — code 0 with the result JSON on
immediate success, code 1 with the error JSON on immediate error, and a
pending code (neither 0 nor 1) with the `(waitable_id, promise_id)`
pair when the callback is still in flight. -/
def abiEncode : AbiResult → Nat × AbiValue
  | AbiResult.ok s => (0, AbiValue.json s)
  | AbiResult.err s => (1, AbiValue.json s)
  | AbiResult.pending w p => (2, AbiValue.handles w p)

/-- What the guest's async runtime receives for each ABI result. -/
def decodeInvoke (r : AbiResult) : GuestResult :=
  invoke_async (abiEncode r).1 (abiEncode r).2

/-! ## Theorems -/

/-! ### Helper lemmas -/

theorem alookup_filter_none {α : Type} (l : List (String × α))
    (p : String × α → Bool) (k : String) (h : ∀ v, p (k, v) = false) :
    alookup (l.filter p) k = Option.none := by
  induction l with
  | nil => rfl
  | cons hd tl ih =>
    obtain ⟨k', v'⟩ := hd
    by_cases hk : k' = k
    · subst hk
      simp [List.filter, h v', ih]
    · cases hp : p (k', v') <;> simp [List.filter, hp, alookup, hk, ih]

theorem mem_of_alookup {α : Type} (d : List (String × α)) (k : String) (v : α)
    (h : alookup d k = some v) : (k, v) ∈ d := by
  induction d with
  | nil => cases h
  | cons hd tl ih =>
    obtain ⟨k', v'⟩ := hd
    by_cases hk : k' = k
    · subst hk
      have h' : some v' = some v := by simpa [alookup] using h
      cases h'
      exact List.mem_cons_self _ _
    · simp only [alookup, if_neg hk] at h
      exact List.mem_cons_of_mem _ (ih h)

/-- Extraction never emits a base key. -/
theorem extract_no_base_key (g : Dict) (k : String)
    (hk : base_keys.contains k = true) :
    alookup (_extract_user_globals g) k = Option.none := by
  apply alookup_filter_none
  intro v
  show (!(base_keys.contains k) && !(startsWithUnderscore k)
      && !(isNone v) && !(isModule v)) = false
  rw [hk]
  rfl

/-! ### C1: snapshot/restore round-trip -/

/-- C1: for every persistent session state `S` all of whose values are
picklable, the bytes returned by `snapshot_state` at `S`, restored after
an intervening `clear_state`, leave the persistent state equal to `S`
and raise no error; and the next execute's globals
(`_get_exec_globals`) bind every variable of `S` to its original
value. -/
theorem snapshot_restore_roundtrip (S : Dict) (b : Bytes)
    (hpick : ∀ kv ∈ S, _is_picklable kv.2 = true)
    (hnodup : (dkeys S).Nodup)
    (hb : snapshot_state S = Except.ok b) :
    restore_state b (clear_state S) = (S, Option.none) ∧
    ∀ k v, (k, v) ∈ S → alookup (_get_exec_globals S) k = some v := by
  have hfilter : _filter_picklable S = S := by
    unfold _filter_picklable
    exact List.filter_eq_self.mpr hpick
  simp only [snapshot_state, hfilter] at hb
  split at hb
  · cases hb
  · simp only [Except.ok.injEq] at hb
    subst hb
    constructor
    · simp [restore_state, pickleLoads, clear_state, aupdate_nil]
    · intro k v hmem
      unfold _get_exec_globals
      rw [alookup_aupdate, alookup_of_mem_nodup S k v hnodup hmem]
      rfl

theorem snapshot_restore_roundtrip_witness :
    restore_state (Bytes.pickled (PickleData.dict [("x", PyValue.int 1)]))
        (clear_state [("x", PyValue.int 1)])
      = ([("x", PyValue.int 1)], Option.none) ∧
    alookup (_get_exec_globals [("x", PyValue.int 1)]) "x"
      = some (PyValue.int 1) := by
  have h := snapshot_restore_roundtrip [("x", PyValue.int 1)]
      (Bytes.pickled (PickleData.dict [("x", PyValue.int 1)]))
      (by decide) (by decide) (by rfl)
  exact ⟨h.1, h.2 "x" (PyValue.int 1) (by decide)⟩

/-! ### C2: restore atomicity -/

/-- C2: for every byte string that does not decode to a dict
(`pickle.loads` raises, or the value is not a dict), `restore_state`
raises a decode error and leaves the persistent state exactly as it
was. -/
theorem restore_state_atomic (b : Bytes) (S : Dict)
    (h : ∀ d, pickleLoads b ≠ some (PickleData.dict d)) :
    (restore_state b S).1 = S ∧
    ((restore_state b S).2 = some RtErr.restoreDecodeFailed ∨
      ∃ t, (restore_state b S).2 = some (RtErr.invalidSnapshotNotDict t)) := by
  cases b with
  | malformed t => exact ⟨rfl, Or.inl rfl⟩
  | pickled p =>
    cases p with
    | dict d => exact absurd rfl (h d)
    | nonDict t => exact ⟨rfl, Or.inr ⟨t, rfl⟩⟩

theorem restore_state_atomic_witness :
    (restore_state (Bytes.malformed "junk") [("y", PyValue.int 2)]).1
      = [("y", PyValue.int 2)] ∧
    (restore_state (Bytes.malformed "junk") [("y", PyValue.int 2)]).2
      = some RtErr.restoreDecodeFailed :=
  ⟨(restore_state_atomic (Bytes.malformed "junk") [("y", PyValue.int 2)]
      (by intro d; simp [pickleLoads])).1,
   rfl⟩

/-! ### C3: snapshot size ceiling -/

/-- C3: when the picklable portion of the session state serializes to
more than `MAX_SNAPSHOT_SIZE` (10 MiB) bytes, `snapshot_state` fails
with the explicit size error; when it serializes to at most 10 MiB,
`snapshot_state` returns the serialized bytes. -/
theorem snapshot_state_size_ceiling (S : Dict) :
    (pickleDictLen (_filter_picklable S) > MAX_SNAPSHOT_SIZE →
      snapshot_state S = Except.error
        (RtErr.snapshotTooLarge (pickleDictLen (_filter_picklable S)))) ∧
    (pickleDictLen (_filter_picklable S) ≤ MAX_SNAPSHOT_SIZE →
      snapshot_state S =
        Except.ok (Bytes.pickled (PickleData.dict (_filter_picklable S)))) := by
  constructor
  · intro h
    simp [snapshot_state, h]
  · intro h
    have hn : ¬ (pickleDictLen (_filter_picklable S) > MAX_SNAPSHOT_SIZE) :=
      Nat.not_lt.mpr h
    simp [snapshot_state, hn]

theorem snapshot_state_size_ceiling_witness :
    snapshot_state [("x", PyValue.blob 11000000)] =
      Except.error (RtErr.snapshotTooLarge
        (pickleDictLen (_filter_picklable [("x", PyValue.blob 11000000)]))) ∧
    snapshot_state [("y", PyValue.int 5)] =
      Except.ok (Bytes.pickled
        (PickleData.dict (_filter_picklable [("y", PyValue.int 5)]))) :=
  ⟨(snapshot_state_size_ceiling [("x", PyValue.blob 11000000)]).1 (by decide),
   (snapshot_state_size_ceiling [("y", PyValue.int 5)]).2 (by decide)⟩

/-! ### C4: session persistence -/

/-- C4: from any session state, `execute("x=42")` succeeds, and a
subsequent `execute("print(x)")` on the same session produces stdout
`"42"`; in general every binding `k = n` created by one execute (with
`k` outside the base keys and not underscore-prefixed) is merged into
the persistent globals and injected into the globals of the next
execute. -/
theorem session_persistence (S : Dict) :
    (execute [Stmt.assignInt "x" 42] S).2 = some "" ∧
    (execute [Stmt.printVar "x"] (execute [Stmt.assignInt "x" 42] S).1).2
      = some "42" ∧
    (∀ (k : String) (n : Int), base_keys.contains k = false →
      startsWithUnderscore k = false →
      alookup (_get_exec_globals (execute [Stmt.assignInt k n] S).1) k
        = some (PyValue.int n)) := by
  have hins : ∀ (k : String) (n : Int),
      ainsert ([] : Dict) k (PyValue.int n) = [(k, PyValue.int n)] := by
    intro k n
    unfold ainsert
    rw [aupdate_nil]
  have hexec : ∀ (k : String) (n : Int), execute [Stmt.assignInt k n] S =
      (aupdate (aupdate S (_extract_user_globals (_get_exec_globals S)))
        (_extract_user_globals [(k, PyValue.int n)]), some "") := by
    intro k n
    simp [execute, runStmts, hins]
  have hxk : ∀ (k : String) (n : Int), base_keys.contains k = false →
      startsWithUnderscore k = false →
      _extract_user_globals [(k, PyValue.int n)] = [(k, PyValue.int n)] := by
    intro k n hk hs
    have hp : (!(base_keys.contains k) && !(startsWithUnderscore k)
        && !(isNone (PyValue.int n)) && !(isModule (PyValue.int n))) = true := by
      rw [hk, hs]
      rfl
    unfold _extract_user_globals
    simp only [List.filter, hp]
  have hlook : ∀ (k : String) (n : Int),
      alookup (_get_exec_globals
        (aupdate (aupdate S (_extract_user_globals (_get_exec_globals S)))
          [(k, PyValue.int n)])) k = some (PyValue.int n) := by
    intro k n
    unfold _get_exec_globals
    rw [alookup_aupdate, alookup_aupdate, alookup_aupdate]
    simp [alookup, Option.orElse]
  refine ⟨by rw [hexec], ?_, ?_⟩
  · rw [hexec "x" 42, hxk "x" 42 (by decide) (by decide)]
    have hrun : runStmts [Stmt.printVar "x"]
        (_get_exec_globals
          (aupdate (aupdate S (_extract_user_globals (_get_exec_globals S)))
            [("x", PyValue.int 42)])) [] ""
        = some (_get_exec_globals
            (aupdate (aupdate S (_extract_user_globals (_get_exec_globals S)))
              [("x", PyValue.int 42)]), [], "" ++ pyStr (PyValue.int 42) ++ "\n") := by
      have hsc : (alookup ([] : Dict) "x").orElse
          (fun _ => alookup (_get_exec_globals
            (aupdate (aupdate S (_extract_user_globals (_get_exec_globals S)))
              [("x", PyValue.int 42)])) "x") = some (PyValue.int 42) := hlook "x" 42
      unfold runStmts
      rw [hsc]
      simp only [runStmts]
    unfold execute
    rw [hrun]
    show some (if ("" ++ pyStr (PyValue.int 42) ++ "\n" : String) = "" then ""
      else rstripNl ("" ++ pyStr (PyValue.int 42) ++ "\n")) = some "42"
    decide
  · intro k n hk hs
    rw [hexec k n, hxk k n hk hs]
    exact hlook k n

theorem session_persistence_witness :
    (execute [Stmt.printVar "x"] (execute [Stmt.assignInt "x" 42] []).1).2
      = some "42" ∧
    alookup (_get_exec_globals (execute [Stmt.assignInt "y" 7] []).1) "y"
      = some (PyValue.int 7) :=
  ⟨(session_persistence []).2.1,
   (session_persistence []).2.2 "y" 7 (by decide) (by decide)⟩

/-! ### C5: scenario 1, trailing newline -/

/-- C5 counterexample: `execute("print('hi')")` delivers `"hi"` to the
caller, and that string does not end in a newline — the trailing
newline emitted by `print` is **not** preserved (line 393 strips it). -/
theorem scenario1_newline_counterexample :
    (execute [Stmt.printStr "hi"] []).2 = some "hi" ∧
    endsWithNewline "hi" = false := by decide

/-- C5 amended: `execute("print('hi')")` succeeds and the stdout
delivered to the caller is `"hi"`, with the trailing newline emitted by
`print` stripped by the guest export (`output.rstrip("\n")`). -/
theorem scenario1_output_stripped :
    execute [Stmt.printStr "hi"] [] = ([], some (rstripNl "hi\n")) ∧
    rstripNl "hi\n" = "hi" := by decide

/-! ### C10: blocked-builtin invariant -/

/-- C10 counterexample: a single `restore_state` call whose bytes decode
to the dict `{"os": "pwned"}` leaves the next execute's globals binding
`os` to a non-`None` value — the claim's "regardless of how many prior
restore_state calls" is false. -/
theorem blocked_builtin_counterexample :
    alookup (_get_exec_globals (runOps
      [SessionOp.restore (Bytes.pickled
        (PickleData.dict [("os", PyValue.str "pwned")]))])) "os"
      = some (PyValue.str "pwned") := by decide

theorem blockedNames_base_key (n : String) (hn : n ∈ blockedNames) :
    base_keys.contains n = true := by
  fin_cases hn <;> decide

theorem stateSafe_step (op : SessionOp) (S : Dict) (hS : stateSafe S)
    (hop : restoreSafe op = true) : stateSafe (stepState op S) := by
  cases op with
  | snapshot => exact hS
  | clear =>
    intro n hn v hv
    simp [clear_state, alookup, stepState] at hv
  | exec code =>
    intro n hn v hv
    simp only [stepState, execute] at hv
    cases hr : runStmts code (_get_exec_globals S) [] "" with
    | none =>
      rw [hr] at hv
      exact hS n hn v hv
    | some res =>
      obtain ⟨g, l, out⟩ := res
      rw [hr] at hv
      simp only at hv
      rw [alookup_aupdate, alookup_aupdate,
        extract_no_base_key l n (blockedNames_base_key n hn),
        extract_no_base_key g n (blockedNames_base_key n hn)] at hv
      simp only [Option.orElse] at hv
      exact hS n hn v hv
  | restore b =>
    intro n hn v hv
    cases b with
    | malformed t => exact hS n hn v hv
    | pickled p =>
      cases p with
      | nonDict t => exact hS n hn v hv
      | dict d =>
        have hv' : alookup d n = some v := by
          rwa [show stepState
              (SessionOp.restore (Bytes.pickled (PickleData.dict d))) S
              = aupdate ([] : Dict) d from rfl, aupdate_nil] at hv
        have hop' : d.all (fun kv =>
            !(blockedNames.contains kv.1) || (kv.2 == PyValue.none)) = true := hop
        have hall := List.all_eq_true.mp hop' (n, v) (mem_of_alookup d n v hv')
        have hcont : blockedNames.contains n = true := by
          fin_cases hn <;> decide
        rw [hcont] at hall
        simpa using hall

theorem foldl_stateSafe (ops : List SessionOp) :
    ∀ (S : Dict), stateSafe S → (∀ op ∈ ops, restoreSafe op = true) →
      stateSafe (ops.foldl (fun s op => stepState op s) S) := by
  induction ops with
  | nil =>
    intro S hS _
    exact hS
  | cons op rest ih =>
    intro S hS hall
    simp only [List.foldl]
    exact ih _ (stateSafe_step op S hS (hall op (List.mem_cons_self _ _)))
      (fun o ho => hall o (List.mem_cons_of_mem _ ho))

/-- C10 amended: in every session history built from `execute`,
`snapshot_state`, `clear_state`, and `restore_state` calls whose bytes
do not decode to a dict binding a blocked name to a non-`None` value
(in particular, every snapshot this runtime itself produces), the
execution globals of the next `execute` bind `os`, `subprocess`,
`socket`, and `__import__` to `None`. -/
theorem blocked_builtins_invariant (ops : List SessionOp)
    (hops : ∀ op ∈ ops, restoreSafe op = true) :
    ∀ n ∈ blockedNames,
      alookup (_get_exec_globals (runOps ops)) n = some PyValue.none := by
  intro n hn
  have hS : stateSafe (runOps ops) :=
    foldl_stateSafe ops [] (by intro n _ v hv; cases hv) hops
  unfold _get_exec_globals
  rw [alookup_aupdate]
  cases hl : alookup (runOps ops) n with
  | some v =>
    have := hS n hn v hl
    subst this
    rfl
  | none =>
    show alookup (aupdate base_globals api_globals) n = some PyValue.none
    fin_cases hn <;> decide

theorem blocked_builtins_invariant_witness :
    alookup (_get_exec_globals (runOps
      [SessionOp.exec [Stmt.assignInt "x" 1],
       SessionOp.restore (Bytes.pickled (PickleData.dict [("x", PyValue.int 2)])),
       SessionOp.clear])) "os" = some PyValue.none :=
  blocked_builtins_invariant
    [SessionOp.exec [Stmt.assignInt "x" 1],
     SessionOp.restore (Bytes.pickled (PickleData.dict [("x", PyValue.int 2)])),
     SessionOp.clear]
    (by decide) "os" (by decide)

/-! ### C6: volume-spec parsing -/

theorem splitOnColon_ne_nil (l : List Char) : splitOnColon l ≠ [] := by
  cases l with
  | nil => simp [splitOnColon]
  | cons c rest =>
    by_cases hc : c = ':' <;> simp [splitOnColon, hc]

theorem splitOnColon_no_colon (l : List Char) (h : ':' ∉ l) :
    splitOnColon l = [l] := by
  induction l with
  | nil => rfl
  | cons c rest ih =>
    have hc : ¬ (c = ':') := fun hh => h (hh ▸ List.mem_cons_self c rest)
    have hrest : ':' ∉ rest := fun hh => h (List.mem_cons_of_mem _ hh)
    simp [splitOnColon, hc, ih hrest]

theorem splitOnColon_append (l1 l2 : List Char) (h : ':' ∉ l1) :
    splitOnColon (l1 ++ ':' :: l2) = l1 :: splitOnColon l2 := by
  induction l1 with
  | nil => simp [splitOnColon]
  | cons c rest ih =>
    have hc : ¬ (c = ':') := fun hh => h (hh ▸ List.mem_cons_self c rest)
    have hrest : ':' ∉ rest := fun hh => h (List.mem_cons_of_mem _ hh)
    simp [splitOnColon, hc, ih hrest]

theorem joinColon_splitOnColon (l : List Char) :
    joinColon (splitOnColon l) = l := by
  induction l with
  | nil => rfl
  | cons c rest ih =>
    obtain ⟨q, ps, hqs⟩ : ∃ q ps, splitOnColon rest = q :: ps := by
      cases hsp : splitOnColon rest with
      | nil => exact absurd hsp (splitOnColon_ne_nil rest)
      | cons q ps => exact ⟨q, ps, rfl⟩
    by_cases hc : c = ':'
    · subst hc
      simp only [splitOnColon, if_pos rfl, hqs, joinColon]
      rw [← hqs, ih]
      rfl
    · cases ps with
      | nil =>
        rw [hqs] at ih
        simp only [joinColon] at ih
        simp [splitOnColon, hc, hqs, joinColon, ih]
      | cons q2 ps2 =>
        rw [hqs] at ih
        simp only [splitOnColon, hc, if_neg hc, hqs, List.headD, List.tail]
        simp only [joinColon, List.cons_append] at ih ⊢
        rw [ih]

/-- C6: for every predicate `isalpha` modelling Python's Unicode
`str.isalpha` (any predicate false on `':'`, as CPython's is),
`parse_volume` accepts exactly the strings `SRC:DST`, `SRC:DST:ro` and
`SRC:DST:rw` — parts (1)-(3) cover colon-free `SRC` that is not a bare
drive letter, part (4) shows a Windows drive-letter prefix (single
alphabetic character, `':'`) is rejoined into `SRC` before matching,
and part (5) shows every successful parse comes from one of the three
shapes, so every other input raises `ArgumentTypeError`. -/
theorem parse_volume_spec (isalpha : Char → Bool)
    (hcolon : isalpha ':' = false) :
    (∀ src dst : List Char, ':' ∉ src → ':' ∉ dst →
      (src.length = 1 && src.all isalpha) = false →
      parse_volume isalpha (src ++ ':' :: dst) = some (src, dst, false)) ∧
    (∀ src dst : List Char, ':' ∉ src → ':' ∉ dst →
      (src.length = 1 && src.all isalpha) = false →
      parse_volume isalpha (src ++ ':' :: (dst ++ ':' :: ['r', 'o']))
        = some (src, dst, true)) ∧
    (∀ src dst : List Char, ':' ∉ src → ':' ∉ dst →
      (src.length = 1 && src.all isalpha) = false →
      parse_volume isalpha (src ++ ':' :: (dst ++ ':' :: ['r', 'w']))
        = some (src, dst, false)) ∧
    (∀ (c : Char) (p1 dst : List Char), isalpha c = true →
      ':' ∉ p1 → ':' ∉ dst →
      parse_volume isalpha (c :: ':' :: (p1 ++ ':' :: dst))
        = some (c :: ':' :: p1, dst, false)) ∧
    (∀ (s a b : List Char) (r : Bool), parse_volume isalpha s = some (a, b, r) →
      (s = a ++ ':' :: b ∧ r = false) ∨
      (s = a ++ ':' :: (b ++ ':' :: ['r', 'o']) ∧ r = true) ∨
      (s = a ++ ':' :: (b ++ ':' :: ['r', 'w']) ∧ r = false)) := by
  refine ⟨?_, ?_, ?_, ?_, ?_⟩
  · intro src dst hsrc hdst hdrive
    unfold parse_volume
    rw [splitOnColon_append src dst hsrc, splitOnColon_no_colon dst hdst]
    simp [rejoinDrive, hdrive]
  · intro src dst hsrc hdst hdrive
    unfold parse_volume
    rw [splitOnColon_append src _ hsrc, splitOnColon_append dst _ hdst,
      splitOnColon_no_colon ['r', 'o'] (by decide)]
    simp [rejoinDrive, hdrive]
  · intro src dst hsrc hdst hdrive
    unfold parse_volume
    rw [splitOnColon_append src _ hsrc, splitOnColon_append dst _ hdst,
      splitOnColon_no_colon ['r', 'w'] (by decide)]
    simp [rejoinDrive, hdrive]
  · intro c p1 dst hc hp1 hdst
    have hcc : ':' ∉ [c] := by
      intro hh
      rcases List.mem_singleton.mp hh with h1
      rw [← h1] at hc
      exact absurd hc (by simp [hcolon])
    unfold parse_volume
    rw [show c :: ':' :: (p1 ++ ':' :: dst) = [c] ++ ':' :: (p1 ++ ':' :: dst)
        from rfl,
      splitOnColon_append [c] _ hcc, splitOnColon_append p1 _ hp1,
      splitOnColon_no_colon dst hdst]
    have hcond : (([c] : List Char).length = 1 && ([c].all isalpha)) = true := by
      simp [hc]
    simp [rejoinDrive, hcond, hc]
  · intro s a b r h
    have hjoin := joinColon_splitOnColon s
    rw [← hjoin]
    unfold parse_volume at h
    generalize hps : splitOnColon s = ps at h hjoin
    clear hjoin hps
    match ps with
    | [] => simp [rejoinDrive] at h
    | [p0] => simp [rejoinDrive] at h
    | p0 :: p1 :: rest =>
      simp only [rejoinDrive] at h
      by_cases hdrive : (p0.length = 1 && p0.all isalpha) = true
      · rw [if_pos hdrive] at h
        match rest with
        | [] => exact Option.noConfusion h
        | [b0] =>
          have h' : some (p0 ++ ':' :: p1, b0, false) = some (a, b, r) := h
          simp only [Option.some.injEq, Prod.mk.injEq] at h'
          obtain ⟨ha, hb, hr⟩ := h'
          subst ha hb hr
          left
          exact ⟨by simp [joinColon, List.append_assoc], rfl⟩
        | [b0, c0] =>
          have h' : (if c0 = ['r', 'o'] then some (p0 ++ ':' :: p1, b0, true)
              else if c0 = ['r', 'w'] then some (p0 ++ ':' :: p1, b0, false)
              else Option.none) = some (a, b, r) := h
          by_cases hro : c0 = ['r', 'o']
          · rw [if_pos hro] at h'
            simp only [Option.some.injEq, Prod.mk.injEq] at h'
            obtain ⟨ha, hb, hr⟩ := h'
            subst ha hb hr
            subst hro
            right; left
            exact ⟨by simp [joinColon, List.append_assoc], rfl⟩
          · rw [if_neg hro] at h'
            by_cases hrw : c0 = ['r', 'w']
            · rw [if_pos hrw] at h'
              simp only [Option.some.injEq, Prod.mk.injEq] at h'
              obtain ⟨ha, hb, hr⟩ := h'
              subst ha hb hr
              subst hrw
              right; right
              exact ⟨by simp [joinColon, List.append_assoc], rfl⟩
            · rw [if_neg hrw] at h'
              exact Option.noConfusion h'
        | b0 :: c0 :: c1 :: rest3 => exact Option.noConfusion h
      · rw [if_neg hdrive] at h
        match rest with
        | [] =>
          have h' : some (p0, p1, false) = some (a, b, r) := h
          simp only [Option.some.injEq, Prod.mk.injEq] at h'
          obtain ⟨ha, hb, hr⟩ := h'
          subst ha hb hr
          left
          exact ⟨by simp [joinColon], rfl⟩
        | [c0] =>
          have h' : (if c0 = ['r', 'o'] then some (p0, p1, true)
              else if c0 = ['r', 'w'] then some (p0, p1, false)
              else Option.none) = some (a, b, r) := h
          by_cases hro : c0 = ['r', 'o']
          · rw [if_pos hro] at h'
            simp only [Option.some.injEq, Prod.mk.injEq] at h'
            obtain ⟨ha, hb, hr⟩ := h'
            subst ha hb hr
            subst hro
            right; left
            exact ⟨by simp [joinColon], rfl⟩
          · rw [if_neg hro] at h'
            by_cases hrw : c0 = ['r', 'w']
            · rw [if_pos hrw] at h'
              simp only [Option.some.injEq, Prod.mk.injEq] at h'
              obtain ⟨ha, hb, hr⟩ := h'
              subst ha hb hr
              subst hrw
              right; right
              exact ⟨by simp [joinColon], rfl⟩
            · rw [if_neg hrw] at h'
              exact Option.noConfusion h'
        | c0 :: c1 :: rest2 => exact Option.noConfusion h

theorem parse_volume_spec_witness :
    parse_volume Char.isAlpha ("/src".data ++ ':' :: "/dst".data)
      = some ("/src".data, "/dst".data, false) ∧
    parse_volume Char.isAlpha
        ("/src".data ++ ':' :: ("/dst".data ++ ':' :: ['r', 'o']))
      = some ("/src".data, "/dst".data, true) ∧
    parse_volume Char.isAlpha
        ("/src".data ++ ':' :: ("/dst".data ++ ':' :: ['r', 'w']))
      = some ("/src".data, "/dst".data, false) ∧
    parse_volume Char.isAlpha ('C' :: ':' :: ("\\Users".data ++ ':' :: "/mnt".data))
      = some ('C' :: ':' :: "\\Users".data, "/mnt".data, false) ∧
    (("/a:/b".data = "/a".data ++ ':' :: "/b".data ∧ false = false) ∨
      ("/a:/b".data = "/a".data ++ ':' :: ("/b".data ++ ':' :: ['r', 'o']) ∧
        false = true) ∨
      ("/a:/b".data = "/a".data ++ ':' :: ("/b".data ++ ':' :: ['r', 'w']) ∧
        false = false)) :=
  ⟨(parse_volume_spec Char.isAlpha (by decide)).1 _ _
      (by decide) (by decide) (by decide),
   (parse_volume_spec Char.isAlpha (by decide)).2.1 _ _
      (by decide) (by decide) (by decide),
   (parse_volume_spec Char.isAlpha (by decide)).2.2.1 _ _
      (by decide) (by decide) (by decide),
   (parse_volume_spec Char.isAlpha (by decide)).2.2.2.1 'C' _ _
      (by decide) (by decide) (by decide),
   (parse_volume_spec Char.isAlpha (by decide)).2.2.2.2
      "/a:/b".data "/a".data "/b".data false (by decide)⟩

/-! ### C7: config-discovery inclusion condition -/

theorem alookup_eq_none_of_not_mem {α : Type} (l : List (String × α)) (k : String)
    (h : k ∉ l.map Prod.fst) : alookup l k = Option.none := by
  induction l with
  | nil => rfl
  | cons hd tl ih =>
    obtain ⟨k', v'⟩ := hd
    have hne : ¬ (k' = k) := by
      intro hk
      exact h (hk ▸ List.mem_cons_self _ _)
    simp only [alookup, if_neg hne]
    exact ih (fun hm => h (List.mem_cons_of_mem _ hm))

theorem processEntry_included (servers : List (String × JDict)) (name : String)
    (cfg : JDict) (h : includedCond cfg = true) :
    processEntry servers name (JValue.obj cfg)
      = aupdate servers [(name, normalizeServer cfg)] := by
  unfold includedCond at h
  unfold processEntry
  cases h1 : truthy (jget cfg "disabled" (JValue.bool false)) <;>
    cases h2 : isFalseLiteral (alookup cfg "enabled") <;>
      cases h3 : isStdioStr (jget cfg "type" (JValue.str "stdio")) <;>
        cases h4 : truthy (jget cfg "command" JValue.null) <;>
          simp_all

theorem processEntry_excluded (servers : List (String × JDict)) (name : String)
    (cfg : JDict) (h : includedCond cfg = false) :
    processEntry servers name (JValue.obj cfg) = servers := by
  unfold includedCond at h
  unfold processEntry
  cases h1 : truthy (jget cfg "disabled" (JValue.bool false)) <;>
    cases h2 : isFalseLiteral (alookup cfg "enabled") <;>
      cases h3 : isStdioStr (jget cfg "type" (JValue.str "stdio")) <;>
        cases h4 : truthy (jget cfg "command" JValue.null) <;>
          simp_all

theorem processEntry_lookup_ne (servers : List (String × JDict)) (n0 : String)
    (c0 : JValue) (k : String) (h : ¬ (k = n0)) :
    alookup (processEntry servers n0 c0) k = alookup servers k := by
  cases c0 with
  | obj cfg =>
    cases hc : includedCond cfg with
    | true =>
      rw [processEntry_included servers n0 cfg hc, alookup_aupdate]
      have hne : ¬ (n0 = k) := fun hh => h hh.symm
      simp [alookup, hne, Option.orElse]
    | false => rw [processEntry_excluded servers n0 cfg hc]
  | null => rfl
  | bool b => rfl
  | num n => rfl
  | str s => rfl
  | arr l => rfl

theorem lookup_extract_fold (mapping : JDict) :
    ∀ (acc : List (String × JDict)) (name : String),
      (mapping.map Prod.fst).Nodup →
      alookup (mapping.foldl (fun servers kv => processEntry servers kv.1 kv.2) acc)
          name
      = match alookup mapping name with
        | some (JValue.obj cfg) =>
            if includedCond cfg then some (normalizeServer cfg)
            else alookup acc name
        | some _ => alookup acc name
        | Option.none => alookup acc name := by
  induction mapping with
  | nil =>
    intro acc name _
    simp [alookup]
  | cons hd rest ih =>
    intro acc name hnd
    obtain ⟨n0, c0⟩ := hd
    simp only [List.map_cons, List.nodup_cons] at hnd
    simp only [List.foldl_cons]
    rw [ih (processEntry acc n0 c0) name hnd.2]
    by_cases hk : n0 = name
    · subst hk
      have hrest : alookup rest n0 = Option.none :=
        alookup_eq_none_of_not_mem rest n0 hnd.1
      rw [hrest]
      simp only [alookup, if_pos rfl]
      cases c0 with
      | obj cfg =>
        cases hc : includedCond cfg with
        | true =>
          rw [processEntry_included acc n0 cfg hc, alookup_aupdate]
          simp [alookup, hc, Option.orElse]
        | false =>
          rw [processEntry_excluded acc n0 cfg hc]
          simp [hc]
      | null => rfl
      | bool b => rfl
      | num n => rfl
      | str s => rfl
      | arr l => rfl
    · have hk' : ¬ (name = n0) := fun hh => hk hh.symm
      rw [processEntry_lookup_ne acc n0 c0 name hk']
      simp only [alookup, if_neg hk]

/-- C7: a server entry of a parsed config mapping appears in the
extracted stdio-server set exactly when its config is a dict whose
`type` equals `"stdio"` or is absent, whose `disabled` is not truthy,
whose `enabled` is not the literal `false`, and whose `command` is set
(truthy) — remote-only entries, having no command, are excluded — and
the included entry is normalised to exactly the keys `command`, `args`,
`env`. -/
theorem config_discovery_inclusion (data : JDict) (key : String) (mapping : JDict)
    (hdata : jget data key (JValue.obj []) = JValue.obj mapping)
    (hnd : (mapping.map Prod.fst).Nodup) (name : String) :
    alookup (_extract_stdio_servers data key) name
    = match alookup mapping name with
      | some (JValue.obj cfg) =>
          if includedCond cfg then some (normalizeServer cfg) else Option.none
      | some _ => Option.none
      | Option.none => Option.none := by
  unfold _extract_stdio_servers
  rw [hdata, lookup_extract_fold mapping [] name hnd]
  cases hm : alookup mapping name with
  | none => rfl
  | some v =>
    cases v with
    | obj cfg =>
      cases hc : includedCond cfg <;> simp [hc, alookup]
    | null => rfl
    | bool b => rfl
    | num n => rfl
    | str s => rfl
    | arr l => rfl

theorem config_discovery_inclusion_witness :
    alookup (_extract_stdio_servers
      [("mcpServers", JValue.obj
        [("good", JValue.obj
          [("command", JValue.str "npx"),
           ("args", JValue.arr [JValue.str "-y"]),
           ("env", JValue.obj [("K", JValue.str "v")]),
           ("extra", JValue.str "dropped")]),
         ("remote", JValue.obj [("url", JValue.str "https://api.example")]),
         ("off", JValue.obj
          [("command", JValue.str "c"), ("disabled", JValue.bool true)])])]
      "mcpServers") "good"
    = some [("command", JValue.str "npx"),
            ("args", JValue.arr [JValue.str "-y"]),
            ("env", JValue.obj [("K", JValue.str "v")])] ∧
    alookup (_extract_stdio_servers
      [("mcpServers", JValue.obj
        [("good", JValue.obj
          [("command", JValue.str "npx"),
           ("args", JValue.arr [JValue.str "-y"]),
           ("env", JValue.obj [("K", JValue.str "v")]),
           ("extra", JValue.str "dropped")]),
         ("remote", JValue.obj [("url", JValue.str "https://api.example")]),
         ("off", JValue.obj
          [("command", JValue.str "c"), ("disabled", JValue.bool true)])])]
      "mcpServers") "remote" = Option.none := by
  constructor
  · exact (config_discovery_inclusion
      [("mcpServers", JValue.obj
        [("good", JValue.obj
          [("command", JValue.str "npx"),
           ("args", JValue.arr [JValue.str "-y"]),
           ("env", JValue.obj [("K", JValue.str "v")]),
           ("extra", JValue.str "dropped")]),
         ("remote", JValue.obj [("url", JValue.str "https://api.example")]),
         ("off", JValue.obj
          [("command", JValue.str "c"), ("disabled", JValue.bool true)])])]
      "mcpServers"
      [("good", JValue.obj
        [("command", JValue.str "npx"),
         ("args", JValue.arr [JValue.str "-y"]),
         ("env", JValue.obj [("K", JValue.str "v")]),
         ("extra", JValue.str "dropped")]),
       ("remote", JValue.obj [("url", JValue.str "https://api.example")]),
       ("off", JValue.obj
        [("command", JValue.str "c"), ("disabled", JValue.bool true)])]
      rfl (by decide) "good").trans (by rfl)
  · exact (config_discovery_inclusion
      [("mcpServers", JValue.obj
        [("good", JValue.obj
          [("command", JValue.str "npx"),
           ("args", JValue.arr [JValue.str "-y"]),
           ("env", JValue.obj [("K", JValue.str "v")]),
           ("extra", JValue.str "dropped")]),
         ("remote", JValue.obj [("url", JValue.str "https://api.example")]),
         ("off", JValue.obj
          [("command", JValue.str "c"), ("disabled", JValue.bool true)])])]
      "mcpServers"
      [("good", JValue.obj
        [("command", JValue.str "npx"),
         ("args", JValue.arr [JValue.str "-y"]),
         ("env", JValue.obj [("K", JValue.str "v")]),
         ("extra", JValue.str "dropped")]),
       ("remote", JValue.obj [("url", JValue.str "https://api.example")]),
       ("off", JValue.obj
        [("command", JValue.str "c"), ("disabled", JValue.bool true)])]
      rfl (by decide) "remote").trans (by rfl)

/-! ### C8: environment-value interpolation -/

theorem expandFuel_congr (env : List (String × String)) :
    ∀ (fuel1 fuel2 : Nat) (cs : List Char),
      cs.length ≤ fuel1 → cs.length ≤ fuel2 →
      expandFuel env fuel1 cs = expandFuel env fuel2 cs := by
  intro fuel1
  induction fuel1 with
  | zero =>
    intro fuel2 cs h1 _
    have hcs : cs = [] := List.eq_nil_of_length_eq_zero (Nat.le_zero.mp h1)
    subst hcs
    cases fuel2 <;> rfl
  | succ f1 ih =>
    intro fuel2 cs h1 h2
    cases cs with
    | nil => cases fuel2 <;> rfl
    | cons c rest =>
      cases fuel2 with
      | zero => simp at h2
      | succ f2 =>
        simp only [List.length_cons, Nat.succ_le_succ_iff] at h1 h2
        simp only [expandFuel]
        by_cases hc : c = '$'
        · rw [if_pos hc, if_pos hc]
          cases hm : tryMatch env rest with
          | some pr =>
            obtain ⟨repl, rem⟩ := pr
            have hlen := tryMatch_length env rest repl rem hm
            show repl ++ expandFuel env f1 rem = repl ++ expandFuel env f2 rem
            rw [ih f2 rem (Nat.le_trans hlen h1) (Nat.le_trans hlen h2)]
          | none =>
            show c :: expandFuel env f1 rest = c :: expandFuel env f2 rest
            rw [ih f2 rest h1 h2]
        · rw [if_neg hc, if_neg hc, ih f2 rest h1 h2]

/-- The unfolding equation of `_expand_env_vars` at a cons cell. -/
theorem expand_cons (env : List (String × String)) (c : Char) (rest : List Char) :
    _expand_env_vars env (c :: rest)
      = if c = '$' then
          match tryMatch env rest with
          | some (repl, rem) => repl ++ _expand_env_vars env rem
          | Option.none => c :: _expand_env_vars env rest
        else c :: _expand_env_vars env rest := by
  unfold _expand_env_vars
  simp only [List.length_cons, expandFuel]
  by_cases hc : c = '$'
  · rw [if_pos hc, if_pos hc]
    cases hm : tryMatch env rest with
    | some pr =>
      obtain ⟨repl, rem⟩ := pr
      have hlen := tryMatch_length env rest repl rem hm
      show repl ++ expandFuel env rest.length rem
        = repl ++ expandFuel env rem.length rem
      rw [expandFuel_congr env rest.length rem.length rem hlen (Nat.le_refl _)]
    | none => rfl
  · rw [if_neg hc, if_neg hc]

theorem takeWhile_append_all (p : Char → Bool) :
    ∀ (l1 l2 : List Char), (∀ c ∈ l1, p c = true) →
      (∀ d, l2.head? = some d → p d = false) →
      (l1 ++ l2).takeWhile p = l1 ∧ (l1 ++ l2).dropWhile p = l2 := by
  intro l1
  induction l1 with
  | nil =>
    intro l2 _ h2
    cases l2 with
    | nil => exact ⟨rfl, rfl⟩
    | cons d t =>
      have hd := h2 d rfl
      simp [List.takeWhile, List.dropWhile, hd]
  | cons c rest ih =>
    intro l2 h1 h2
    have hc := h1 c (List.mem_cons_self _ _)
    have hrest := fun d hd => h1 d (List.mem_cons_of_mem _ hd)
    obtain ⟨ht, hd⟩ := ih l2 hrest h2
    simp [List.takeWhile, List.dropWhile, hc, ht, hd]

theorem splitAtRBrace_append (dflt post : List Char) (h : '}' ∉ dflt) :
    splitAtRBrace (dflt ++ '}' :: post) = some (dflt, post) := by
  induction dflt with
  | nil => simp [splitAtRBrace]
  | cons c rest ih =>
    have hc : ¬ (c = '}') := fun hh => h (hh ▸ List.mem_cons_self c rest)
    have hrest : '}' ∉ rest := fun hh => h (List.mem_cons_of_mem _ hh)
    simp [splitAtRBrace, hc, ih hrest]

theorem noPattern_of_no_dollar (env : List (String × String)) (cs : List Char)
    (h : '$' ∉ cs) : noPattern env cs := by
  intro l1 l2 hsplit
  have : '$' ∈ cs := by
    rw [hsplit]
    exact List.mem_append_right l1 (List.mem_cons_self '$' l2)
  exact (h this).elim

theorem expand_noPattern (env : List (String × String)) (cs : List Char)
    (h : noPattern env cs) : _expand_env_vars env cs = cs := by
  induction cs with
  | nil => rfl
  | cons c rest ih =>
    have hrest : noPattern env rest := by
      intro l1 l2 hsplit
      exact h (c :: l1) l2 (by rw [hsplit]; rfl)
    by_cases hc : c = '$'
    · subst hc
      have hm : tryMatch env rest = Option.none := h [] rest rfl
      rw [expand_cons, if_pos rfl, hm]
      show '$' :: _expand_env_vars env rest = '$' :: rest
      rw [ih hrest]
    · rw [expand_cons, if_neg hc, ih hrest]

theorem expand_append_no_dollar (env : List (String × String))
    (l1 l2 : List Char) (h : '$' ∉ l1) :
    _expand_env_vars env (l1 ++ l2) = l1 ++ _expand_env_vars env l2 := by
  induction l1 with
  | nil => rfl
  | cons c rest ih =>
    have hc : ¬ (c = '$') := fun hh => h (hh ▸ List.mem_cons_self c rest)
    have hrest : '$' ∉ rest := fun hh => h (List.mem_cons_of_mem _ hh)
    rw [List.cons_append, expand_cons, if_neg hc, ih hrest]
    rfl

theorem tryMatch_dollar_var (env : List (String × String)) (c : Char)
    (cs post : List Char) (hc : isIdentStart c = true)
    (hcs : ∀ d ∈ cs, isIdentCont d = true)
    (hpost : ∀ d, post.head? = some d → isIdentCont d = false) :
    tryMatch env (c :: (cs ++ post))
      = some ((envGet env (String.mk (c :: cs))).data, post) := by
  obtain ⟨ht, hd⟩ := takeWhile_append_all isIdentCont cs post hcs hpost
  simp [tryMatch, hc, ht, hd]

theorem tryMatch_brace_var (env : List (String × String)) (c : Char)
    (cs post : List Char) (hc : isIdentStart c = true)
    (hcs : ∀ d ∈ cs, isIdentCont d = true) :
    tryMatch env ('{' :: c :: (cs ++ '}' :: post))
      = some ((envGet env (String.mk (c :: cs))).data, post) := by
  obtain ⟨ht, hd⟩ := takeWhile_append_all isIdentCont cs ('}' :: post) hcs
    (by intro d hd; cases hd; decide)
  have hbr : isIdentStart '{' = false := by decide
  simp [tryMatch, matchBrace, hc, ht, hd, matchAfterIdent, hbr]

theorem tryMatch_default_var (env : List (String × String)) (c : Char)
    (cs dflt post : List Char) (hc : isIdentStart c = true)
    (hcs : ∀ d ∈ cs, isIdentCont d = true) (hdflt : '}' ∉ dflt) :
    tryMatch env ('{' :: c :: (cs ++ ':' :: '-' :: (dflt ++ '}' :: post)))
      = some ((if envGet env (String.mk (c :: cs)) = "" then dflt
               else (envGet env (String.mk (c :: cs))).data), post) := by
  obtain ⟨ht, hd⟩ := takeWhile_append_all isIdentCont cs
    (':' :: '-' :: (dflt ++ '}' :: post)) hcs
    (by intro d hd; cases hd; decide)
  have hbr : isIdentStart '{' = false := by decide
  simp [tryMatch, matchBrace, hc, ht, hd, matchAfterIdent, hbr,
    splitAtRBrace_append dflt post hdflt]

/-- C8: `_expand_env_vars` over environment `E` — (1) text containing
no `$`-pattern is returned unchanged, (2) expansion distributes over a
`$`-free prefix, so every occurrence is replaced, (3) `$VAR` (maximal
identifier munch) is replaced by `E[VAR]`, or the empty string when
unset, (4) `${VAR}` likewise, (5) `${VAR:-default}` is replaced by
`E[VAR]` when `VAR` is set to a non-empty value, and by `default` when
unset or empty. -/
theorem expand_env_vars_spec :
    (∀ (env : List (String × String)) (cs : List Char), noPattern env cs →
      _expand_env_vars env cs = cs) ∧
    (∀ (env : List (String × String)) (l1 l2 : List Char), '$' ∉ l1 →
      _expand_env_vars env (l1 ++ l2) = l1 ++ _expand_env_vars env l2) ∧
    (∀ (env : List (String × String)) (c : Char) (cs post : List Char),
      isIdentStart c = true → (∀ d ∈ cs, isIdentCont d = true) →
      (∀ d, post.head? = some d → isIdentCont d = false) →
      _expand_env_vars env ('$' :: c :: (cs ++ post))
        = (envGet env (String.mk (c :: cs))).data ++ _expand_env_vars env post) ∧
    (∀ (env : List (String × String)) (c : Char) (cs post : List Char),
      isIdentStart c = true → (∀ d ∈ cs, isIdentCont d = true) →
      _expand_env_vars env ('$' :: '{' :: c :: (cs ++ '}' :: post))
        = (envGet env (String.mk (c :: cs))).data ++ _expand_env_vars env post) ∧
    (∀ (env : List (String × String)) (c : Char) (cs dflt post : List Char),
      isIdentStart c = true → (∀ d ∈ cs, isIdentCont d = true) → '}' ∉ dflt →
      _expand_env_vars env
          ('$' :: '{' :: c :: (cs ++ ':' :: '-' :: (dflt ++ '}' :: post)))
        = (if envGet env (String.mk (c :: cs)) = "" then dflt
           else (envGet env (String.mk (c :: cs))).data)
          ++ _expand_env_vars env post) := by
  refine ⟨expand_noPattern, expand_append_no_dollar, ?_, ?_, ?_⟩
  · intro env c cs post hc hcs hpost
    rw [expand_cons, if_pos rfl, tryMatch_dollar_var env c cs post hc hcs hpost]
  · intro env c cs post hc hcs
    rw [expand_cons, if_pos rfl, tryMatch_brace_var env c cs post hc hcs]
  · intro env c cs dflt post hc hcs hdflt
    rw [expand_cons, if_pos rfl,
      tryMatch_default_var env c cs dflt post hc hcs hdflt]

theorem expand_env_vars_spec_witness :
    _expand_env_vars [("HOME", "/root"), ("EMPTY", "")] "plain".data
      = "plain".data ∧
    _expand_env_vars [("HOME", "/root"), ("EMPTY", "")]
        ("pre ".data ++ "tail".data)
      = "pre ".data ++ _expand_env_vars [("HOME", "/root"), ("EMPTY", "")]
          "tail".data ∧
    _expand_env_vars [("HOME", "/root"), ("EMPTY", "")]
        ('$' :: 'H' :: ("OME".data ++ " x".data))
      = (envGet [("HOME", "/root"), ("EMPTY", "")]
          (String.mk ('H' :: "OME".data))).data
        ++ _expand_env_vars [("HOME", "/root"), ("EMPTY", "")] " x".data ∧
    _expand_env_vars [("HOME", "/root"), ("EMPTY", "")]
        ('$' :: '{' :: 'H' :: ("OME".data ++ '}' :: "!".data))
      = (envGet [("HOME", "/root"), ("EMPTY", "")]
          (String.mk ('H' :: "OME".data))).data
        ++ _expand_env_vars [("HOME", "/root"), ("EMPTY", "")] "!".data ∧
    _expand_env_vars [("HOME", "/root"), ("EMPTY", "")]
        ('$' :: '{' :: 'E' :: ("MPTY".data ++ ':' :: '-'
          :: ("dflt".data ++ '}' :: [])))
      = (if envGet [("HOME", "/root"), ("EMPTY", "")]
            (String.mk ('E' :: "MPTY".data)) = "" then "dflt".data
         else (envGet [("HOME", "/root"), ("EMPTY", "")]
            (String.mk ('E' :: "MPTY".data))).data)
        ++ _expand_env_vars [("HOME", "/root"), ("EMPTY", "")] [] :=
  ⟨expand_env_vars_spec.1 _ _
      (noPattern_of_no_dollar _ _ (by decide)),
   expand_env_vars_spec.2.1 _ _ _ (by decide),
   expand_env_vars_spec.2.2.1 _ 'H' _ _ (by decide) (by decide)
      (by intro d hd; cases hd; decide),
   expand_env_vars_spec.2.2.2.1 _ 'H' _ _ (by decide) (by decide),
   expand_env_vars_spec.2.2.2.2 _ 'E' _ _ _ (by decide) (by decide) (by decide)⟩

/-! ### C9: guest→host async ABI encoding -/

/-- C9: the ABI result is a 3-way variant — `Ok(result_json)` (code 0),
`Err(error_json)` (code 1), `Pending(waitable_id, promise_id)` (pending
code) — and `invoke_async` exposes the three cases to the guest's async
runtime as pairwise-distinguishable values: `Ok` carrying the result
JSON, `Err` carrying the error JSON, and `Err` carrying the
`(waitable, promise)` handle pair. -/
theorem invoke_async_three_way :
    (∀ s, decodeInvoke (AbiResult.ok s) = GuestResult.Ok (AbiValue.json s)) ∧
    (∀ s, decodeInvoke (AbiResult.err s) = GuestResult.Err (AbiValue.json s)) ∧
    (∀ w p, decodeInvoke (AbiResult.pending w p)
      = GuestResult.Err (AbiValue.handles w p)) ∧
    (∀ s t w p,
      decodeInvoke (AbiResult.ok s) ≠ decodeInvoke (AbiResult.err t) ∧
      decodeInvoke (AbiResult.ok s) ≠ decodeInvoke (AbiResult.pending w p) ∧
      decodeInvoke (AbiResult.err t) ≠ decodeInvoke (AbiResult.pending w p)) := by
  refine ⟨fun s => rfl, fun s => rfl, fun w p => rfl, fun s t w p => ⟨?_, ?_, ?_⟩⟩
  · simp [decodeInvoke, abiEncode, invoke_async]
  · simp [decodeInvoke, abiEncode, invoke_async]
  · simp [decodeInvoke, abiEncode, invoke_async]

theorem invoke_async_three_way_witness :
    decodeInvoke (AbiResult.ok "r") = GuestResult.Ok (AbiValue.json "r") ∧
    decodeInvoke (AbiResult.err "e") = GuestResult.Err (AbiValue.json "e") ∧
    decodeInvoke (AbiResult.pending 3 4)
      = GuestResult.Err (AbiValue.handles 3 4) :=
  ⟨invoke_async_three_way.1 "r", invoke_async_three_way.2.1 "e",
   invoke_async_three_way.2.2.1 3 4⟩

end Eryx
